import Mathlib

/-!
Verification of the span tree builder, tree renderer, timeline layout and
trace wide event merge of sentry-tool (src/sentry_tool/commands/traces.py),
shallowly embedded in Lean.  Python dictionaries are embedded as insertion
ordered association lists, floats as exact rationals, and the mutable
children lists of the second builder loop as the derived childKeys function
on the final node mapping.
-/

namespace SentryTool

/-- Span models one raw span record of the API payload: a loosely typed
dictionary in which every field may be absent.  Defaults are applied at the
point of use, mirroring the span.get calls in traces.py. -/
structure Span where
  span_id : Option String := none
  parent_span_id : Option String := none
  op : Option String := none
  description : Option String := none
  start_timestamp : Option ℚ := none
  timestamp : Option ℚ := none
  deriving Repr, DecidableEq

/-- SpanNode models the SpanNode dataclass of traces.py without its mutable
children list; the children lists produced by the second loop of
_build_span_tree are recovered by the childKeys function below. -/
structure SpanNode where
  span_id : String
  parent_span_id : Option String
  op : String
  description : String
  duration : ℚ
  deriving Repr, DecidableEq

/-- sid mirrors the expression span.get applied to the span id key with the
empty string as default. -/
def Span.sid (s : Span) : String := s.span_id.getD ""

/-- spanToNode models the SpanNode construction in the first loop of
_build_span_tree, including the placeholder defaults for op and description
and the duration computed as end minus start. -/
def spanToNode (s : Span) : SpanNode :=
  { span_id := s.sid
    parent_span_id := s.parent_span_id
    op := s.op.getD "(unknown)"
    description := s.description.getD "(no description)"
    duration := s.timestamp.getD 0 - s.start_timestamp.getD 0 }

/-- hasKey models the Python membership test on the node mapping. -/
def hasKey (m : List (String × SpanNode)) (k : String) : Bool :=
  m.any (fun e => e.1 == k)

/-- registerStep models one iteration of the first loop of _build_span_tree:
a span with empty id is skipped silently, a span whose id is already in the
mapping is skipped with a duplicate warning recorded in the second
component, and any other span is appended to the mapping. -/
def registerStep (st : List (String × SpanNode) × List String) (s : Span) :
    List (String × SpanNode) × List String :=
  if s.sid = "" then st
  else if hasKey st.1 s.sid then (st.1, st.2 ++ [s.sid])
  else (st.1 ++ [(s.sid, spanToNode s)], st.2)

/-- registerFrom folds registerStep over a span list from a given state. -/
def registerFrom (st : List (String × SpanNode) × List String)
    (spans : List Span) : List (String × SpanNode) × List String :=
  spans.foldl registerStep st

/-- registerSpans models the whole first loop of _build_span_tree, starting
from the empty node mapping and no warnings. -/
def registerSpans (spans : List Span) : List (String × SpanNode) × List String :=
  registerFrom ([], []) spans

/-- rootId models the Python expression applying the or operator to the
root span id argument and the literal root: the literal is used when the
argument is None or the empty string. -/
def rootId (root_span_id : Option String) : String :=
  match root_span_id with
  | some s => if s = "" then "root" else s
  | none => "root"

/-- rootNode models the root SpanNode built at the top of _build_span_tree. -/
def rootNode (root_span_id : Option String) : SpanNode :=
  { span_id := rootId root_span_id
    parent_span_id := none
    op := "transaction"
    description := ""
    duration := 0 }

/-- upsert models Python dict assignment on an insertion ordered mapping: an
existing key keeps its position and receives the new value, a fresh key is
appended at the end. -/
def upsert (m : List (String × SpanNode)) (k : String) (v : SpanNode) :
    List (String × SpanNode) :=
  if hasKey m k then m.map (fun e => if e.1 = k then (k, v) else e)
  else m ++ [(k, v)]

/-- buildNodeMap models lines 181 to 198 of traces.py: the registration loop
over the spans followed by the insertion of the root node into the mapping.
The first component is the node mapping in insertion order, the second the
ids for which a duplicate warning diagnostic was emitted. -/
def buildNodeMap (spans : List Span) (root_span_id : Option String) :
    List (String × SpanNode) × List String :=
  let st := registerSpans spans
  (upsert st.1 (rootId root_span_id) (rootNode root_span_id), st.2)

/-- lookupNode models indexing the node mapping by a span id. -/
def lookupNode (m : List (String × SpanNode)) (k : String) : Option SpanNode :=
  (m.find? (fun e => e.1 == k)).map Prod.snd

/-- parentTarget gives the key of the mapping entry whose children list the
second loop of _build_span_tree appends a node to: the declared parent when
it is neither None nor empty and is present in the mapping, and the root id
otherwise. -/
def parentTarget (m : List (String × SpanNode)) (rid : String) (n : SpanNode) :
    String :=
  match n.parent_span_id with
  | some p => if p ≠ "" ∧ hasKey m p then p else rid
  | none => rid

/-- childKeys m rid k lists, in mapping order, the keys of the nodes that the
second loop of _build_span_tree appends to the children list of the node
stored at key k; the root entry itself is skipped by that loop. -/
def childKeys (m : List (String × SpanNode)) (rid k : String) : List String :=
  (m.filter (fun e => decide (e.1 ≠ rid ∧ parentTarget m rid e.2 = k))).map Prod.fst

/-- ChildRel m rid p c holds when the node stored at key c ends up in the
children list of the node stored at key p. -/
def ChildRel (m : List (String × SpanNode)) (rid : String) (p c : String) : Prop :=
  c ∈ childKeys m rid p

/-- Reaches m rid k holds when the node at key k can be reached from the root
by repeatedly descending into children lists, i.e. the node belongs to the
tree returned by _build_span_tree. -/
def Reaches (m : List (String × SpanNode)) (rid : String) (k : String) : Prop :=
  Relation.ReflTransGen (ChildRel m rid) rid k

/-- chainOk checks, with explicit fuel, that repeatedly following
parentTarget from a key reaches the root id; it expresses acyclicity of the
declared parent references. -/
def chainOk (m : List (String × SpanNode)) (rid : String) :
    Nat → String → Bool
  | 0, k => k == rid
  | fuel+1, k =>
    if k == rid then true
    else
      match lookupNode m k with
      | some n => chainOk m rid fuel (parentTarget m rid n)
      | none => false

/-- nonRootKeys lists the keys of the node mapping other than the root id. -/
def nonRootKeys (m : List (String × SpanNode)) (rid : String) : List String :=
  (m.filter (fun e => e.1 != rid)).map Prod.fst

/-- MAX_DESCRIPTION_LENGTH is the fixed truncation threshold of traces.py. -/
def MAX_DESCRIPTION_LENGTH : Nat := 50

/-- truncateDesc models the description handling of _render_span_tree on the
code point sequence of the description: a description longer than the
threshold is cut to threshold minus three code points and three dots are
appended. -/
def truncateDesc (d : List Char) : List Char :=
  if MAX_DESCRIPTION_LENGTH < d.length then
    d.take (MAX_DESCRIPTION_LENGTH - 3) ++ ['.', '.', '.']
  else d

/-- renderDesc is truncateDesc transported to strings. -/
def renderDesc (d : String) : String := String.mk (truncateDesc d.data)

/-- startTS mirrors span.get on the start timestamp key with default 0. -/
def Span.startTS (s : Span) : ℚ := s.start_timestamp.getD 0

/-- endTS mirrors span.get on the (end) timestamp key with default 0. -/
def Span.endTS (s : Span) : ℚ := s.timestamp.getD 0

/-- foldMin models the Python min builtin on a nonempty sequence. -/
def foldMin (x : ℚ) (xs : List ℚ) : ℚ := xs.foldl min x

/-- foldMax models the Python max builtin on a nonempty sequence. -/
def foldMax (x : ℚ) (xs : List ℚ) : ℚ := xs.foldl max x

/-- minStartOf is the minimum start instant of a span list; the empty case
is never consulted because _render_timeline raises on an empty sequence. -/
def minStartOf : List Span → ℚ
  | [] => 0
  | s :: rest => foldMin s.startTS (rest.map Span.startTS)

/-- maxEndOf is the maximum end instant of a span list. -/
def maxEndOf : List Span → ℚ
  | [] => 0
  | s :: rest => foldMax s.endTS (rest.map Span.endTS)

/-- totalDuration is the length of the shared time axis in _render_timeline. -/
def totalDuration (spans : List Span) : ℚ := maxEndOf spans - minStartOf spans

/-- pyInt models the Python int conversion on a rational value: truncation
toward zero. -/
def pyInt (q : ℚ) : Int := if 0 ≤ q then ⌊q⌋ else ⌈q⌉

/-- BAR_WIDTH is the bar width constant of _render_timeline. -/
def BAR_WIDTH : Nat := 40

/-- TimelineResult captures the observable outcome of _render_timeline:
either the early cannot render message, or one bar per span, in input
order, given as the pair of its offset and its length in character cells. -/
inductive TimelineResult where
  | cannotRender : TimelineResult
  | rendered : List (Int × Int) → TimelineResult
  deriving Repr, DecidableEq

/-- timelineBar gives the offset and length pair computed for one span in
the loop of _render_timeline. -/
def timelineBar (minStart total : ℚ) (s : Span) : Int × Int :=
  let offset := s.startTS - minStart
  let dur := s.endTS - s.startTS
  (pyInt (offset / total * (BAR_WIDTH : ℚ)),
   max 1 (pyInt (dur / total * (BAR_WIDTH : ℚ))))

/-- renderTimeline models _render_timeline: none models the ValueError that
the min builtin raises on an empty list, cannotRender the guarded early
return, and rendered the list of computed bars. -/
def renderTimeline (spans : List Span) : Option TimelineResult :=
  match spans with
  | [] => none
  | s :: rest =>
    let minStart := minStartOf (s :: rest)
    let total := totalDuration (s :: rest)
    if total ≤ 0 then some .cannotRender
    else some (.rendered ((s :: rest).map (timelineBar minStart total)))

/-- TraceEvent models one event record of the trace lookup response; only
the timestamp field participates in the ordering, the remaining fields are
carried along for display. -/
structure TraceEvent where
  timestamp : Option String := none
  title : Option String := none
  id : Option String := none
  deriving Repr, DecidableEq

/-- tsKey mirrors the sort key lambda of lookup_trace: the timestamp field
with the empty string as default. -/
def TraceEvent.tsKey (e : TraceEvent) : String := e.timestamp.getD ""

/-- evLe is the ascending comparison on timestamp keys used by the sort,
stated on the code point sequences, which is exactly the lexicographic
comparison Python applies to strings. -/
def evLe (a b : TraceEvent) : Prop := a.tsKey.data ≤ b.tsKey.data

instance : DecidableRel evLe :=
  fun a b => inferInstanceAs (Decidable (a.tsKey.data ≤ b.tsKey.data))

instance : IsTotal TraceEvent evLe := ⟨fun a b => le_total a.tsKey.data b.tsKey.data⟩

instance : IsTrans TraceEvent evLe := ⟨fun _ _ _ hab hbc => le_trans hab hbc⟩

/-- mergeTraceEvents models the sort and truncate step of lookup_trace: the
event list is sorted ascending by its timestamp string with a stable sort
(Python list.sort; embedded by the stable insertionSort, which has the same
observable behavior) and then cut to max_rows. -/
def mergeTraceEvents (events : List TraceEvent) (maxRows : Nat) : List TraceEvent :=
  (events.insertionSort evLe).take maxRows

/-- applyOpFilter models the op filter block of show_spans: a None or empty
filter string leaves the list unchanged (the Python truthiness test), else
the filter is split on commas, entries are trimmed, and a span is kept when
its op field is present and belongs to the resulting set. -/
def applyOpFilter (op : Option String) (spans : List Span) : List Span :=
  match op with
  | none => spans
  | some o =>
    if o = "" then spans
    else
      let filters := (o.splitOn ",").map String.trim
      spans.filter (fun s =>
        match s.op with
        | some v => decide (v ∈ filters)
        | none => false)

/-- pad3 renders a natural number below 1000 with exactly three digits. -/
def pad3 (n : Nat) : String :=
  if n < 10 then "00" ++ toString n
  else if n < 100 then "0" ++ toString n
  else toString n

/-- formatFixed3 models fixed point formatting with three decimals as used
by the summary f-string, idealized over exact rationals: the value is
scaled by 1000 and rounded to the nearest integer. -/
def formatFixed3 (q : ℚ) : String :=
  let m : Int := ⌊q * 1000 + 1/2⌋
  let sign := if m < 0 then "-" else ""
  sign ++ toString (m.natAbs / 1000) ++ "." ++ pad3 (m.natAbs % 1000)

/-- renderSummaryLine models the final console.print of _render_span_tree:
the span count followed by the formatted transaction duration. -/
def renderSummaryLine (totalSpans : Nat) (txnDuration : ℚ) : String :=
  "\n" ++ toString totalSpans ++ " spans | " ++ formatFixed3 txnDuration ++ "s total"

/-- showSpansSummary models the table branch of show_spans after span
extraction: the early returns for an empty span list and for an empty
filter result give none; otherwise the tree is built from the filtered
spans and the summary line is rendered with the length of the filtered
list. -/
def showSpansSummary (spans : List Span) (op : Option String)
    (root_span_id : Option String) (txnDuration : ℚ) : Option String :=
  if spans = [] then none
  else
    let filtered := applyOpFilter op spans
    if filtered = [] then none
    else
      let _tree := buildNodeMap filtered root_span_id
      some (renderSummaryLine filtered.length txnDuration)

/-- treeNonRootCount counts the nodes of the built tree other than the
root, i.e. the entries of the node mapping at a key other than the root
id. -/
def treeNonRootCount (spans : List Span) (root_span_id : Option String) : Nat :=
  (nonRootKeys (buildNodeMap spans root_span_id).1 (rootId root_span_id)).length

/-! Concrete inputs used by witnesses and counterexamples. -/

/-- d60 is a description of exactly 60 code points. -/
def d60 : String := String.mk (List.replicate 60 'x')

/-- exTiny is a span whose start and end instants coincide. -/
def exTiny : Span :=
  { span_id := some "x", start_timestamp := some 0, timestamp := some 0 }

/-- exLong is a span covering the whole ten second axis. -/
def exLong : Span :=
  { span_id := some "x", start_timestamp := some 0, timestamp := some 10 }

/-- exDot is a zero duration span in the middle of the axis. -/
def exDot : Span :=
  { span_id := some "y", start_timestamp := some 5, timestamp := some 5 }

/-- rootCollisionSpan is an input span whose id equals the synthetic root id. -/
def rootCollisionSpan : Span :=
  { span_id := some "root", op := some "db.query" }

/-- evEarly is the chronologically earlier scenario event. -/
def evEarly : TraceEvent := { timestamp := some "2024-01-15T10:30:00" }

/-- evLate is the chronologically later scenario event. -/
def evLate : TraceEvent := { timestamp := some "2024-01-15T10:30:01" }

/-- colFirst is the first of two spans sharing the root id. -/
def colFirst : Span := { span_id := some "r", op := some "one" }

/-- colSecond is the second of two spans sharing the root id. -/
def colSecond : Span := { span_id := some "r", op := some "two" }

/-- dupFirst is the first scenario span with the duplicated id. -/
def dupFirst : Span :=
  { span_id := some "dup", parent_span_id := some "root",
    description := some "first" }

/-- dupSecond is the second scenario span with the duplicated id. -/
def dupSecond : Span :=
  { span_id := some "dup", parent_span_id := some "root",
    description := some "second" }

/-- childSpan is a span declaring the root as its parent. -/
def childSpan : Span :=
  { span_id := some "child", parent_span_id := some "root" }

/-- cycA declares cycB as its parent. -/
def cycA : Span := { span_id := some "a", parent_span_id := some "b" }

/-- cycB declares cycA as its parent, closing a two node parent cycle. -/
def cycB : Span := { span_id := some "b", parent_span_id := some "a" }

/-- wSpanA is a witness span adopted by the root. -/
def wSpanA : Span := { span_id := some "a" }

/-- wSpanB is a witness span whose parent is wSpanA. -/
def wSpanB : Span := { span_id := some "b", parent_span_id := some "a" }

/-- sumSpan is a span used to instantiate the summary property. -/
def sumSpan : Span := { span_id := some "s1", op := some "db" }

/-! Basic lemmas about the association list operations. -/

theorem hasKey_iff {m : List (String × SpanNode)} {k : String} :
    hasKey m k = true ↔ k ∈ m.map Prod.fst := by
  simp [hasKey, List.any_eq_true, List.mem_map, beq_iff_eq]

theorem hasKey_append_single {m : List (String × SpanNode)} {k k' : String}
    {v : SpanNode} (h : k' ≠ k) :
    hasKey (m ++ [(k', v)]) k = hasKey m k := by
  simp [hasKey, List.any_append, h]

theorem lookupNode_mem {m : List (String × SpanNode)} {k : String} {n : SpanNode}
    (h : lookupNode m k = some n) : (k, n) ∈ m := by
  unfold lookupNode at h
  obtain ⟨e, he, hm⟩ := Option.map_eq_some'.mp h
  have hmem := List.mem_of_find?_eq_some he
  have hkey : e.1 = k := by
    have := List.find?_some he
    simpa [beq_iff_eq] using this
  subst hm
  have : e = (e.1, e.2) := rfl
  rw [hkey] at this
  exact this ▸ hmem

theorem lookupNode_isSome_of_hasKey {m : List (String × SpanNode)} {k : String}
    (h : hasKey m k = true) : ∃ n, lookupNode m k = some n := by
  rw [hasKey_iff] at h
  obtain ⟨e, he, hk⟩ := List.mem_map.mp h
  have : (m.find? (fun e => e.1 == k)).isSome := by
    apply List.find?_isSome.mpr
    exact ⟨e, he, by simp [beq_iff_eq, hk]⟩
  obtain ⟨e', he'⟩ := Option.isSome_iff_exists.mp this
  exact ⟨e'.2, by simp [lookupNode, he']⟩

theorem lookupNode_eq_none_of_not_hasKey {m : List (String × SpanNode)} {k : String}
    (h : hasKey m k = false) : lookupNode m k = none := by
  unfold lookupNode
  have : m.find? (fun e => e.1 == k) = none := by
    apply List.find?_eq_none.mpr
    intro e he
    intro hk
    have hkk : e.1 = k := by simpa [beq_iff_eq] using hk
    have : hasKey m k = true := hasKey_iff.mpr (List.mem_map.mpr ⟨e, he, hkk⟩)
    rw [this] at h
    exact absurd h (by simp)
  simp [this]

theorem lookupNode_append {m₁ m₂ : List (String × SpanNode)} {k : String} :
    lookupNode (m₁ ++ m₂) k =
      (lookupNode m₁ k).or (lookupNode m₂ k) := by
  unfold lookupNode
  rw [List.find?_append]
  cases h : m₁.find? (fun e => e.1 == k) <;> simp [Option.or]

/-! Lemmas about the registration loop of the builder. -/

theorem registerFrom_cons {st : List (String × SpanNode) × List String}
    {s : Span} {spans : List Span} :
    registerFrom st (s :: spans) = registerFrom (registerStep st s) spans := rfl

theorem registerFrom_map_ext (spans : List Span)
    (st : List (String × SpanNode) × List String) :
    ∃ tl, (registerFrom st spans).1 = st.1 ++ tl := by
  induction spans generalizing st with
  | nil => exact ⟨[], by simp [registerFrom]⟩
  | cons s rest ih =>
    rw [registerFrom_cons]
    unfold registerStep
    by_cases h0 : s.sid = ""
    · simpa [h0] using ih st
    · by_cases h1 : hasKey st.1 s.sid
      · simp only [h0, if_false, h1, if_true]
        exact ih _
      · simp only [h0, if_false, h1, Bool.false_eq_true, if_false]
        obtain ⟨tl, htl⟩ := ih (st.1 ++ [(s.sid, spanToNode s)], st.2)
        exact ⟨(s.sid, spanToNode s) :: tl, by simpa using htl⟩

theorem registerFrom_warn_ext (spans : List Span)
    (st : List (String × SpanNode) × List String) :
    ∃ tw, (registerFrom st spans).2 = st.2 ++ tw := by
  induction spans generalizing st with
  | nil => exact ⟨[], by simp [registerFrom]⟩
  | cons s rest ih =>
    rw [registerFrom_cons]
    unfold registerStep
    by_cases h0 : s.sid = ""
    · simpa [h0] using ih st
    · by_cases h1 : hasKey st.1 s.sid
      · simp only [h0, if_false, h1, if_true]
        obtain ⟨tw, htw⟩ := ih (st.1, st.2 ++ [s.sid])
        exact ⟨s.sid :: tw, by simpa using htw⟩
      · simp only [h0, if_false, h1, Bool.false_eq_true, if_false]
        exact ih _

theorem registerFrom_warn_mono {st : List (String × SpanNode) × List String}
    {spans : List Span} {d : String} (h : d ∈ st.2) :
    d ∈ (registerFrom st spans).2 := by
  obtain ⟨tw, htw⟩ := registerFrom_warn_ext spans st
  rw [htw]
  exact List.mem_append_left _ h

theorem registerFrom_keys_nodup (spans : List Span)
    (st : List (String × SpanNode) × List String)
    (h : (st.1.map Prod.fst).Nodup) :
    ((registerFrom st spans).1.map Prod.fst).Nodup := by
  induction spans generalizing st with
  | nil => simpa [registerFrom] using h
  | cons s rest ih =>
    rw [registerFrom_cons]
    unfold registerStep
    by_cases h0 : s.sid = ""
    · simpa [h0] using ih st h
    · by_cases h1 : hasKey st.1 s.sid
      · simp only [h0, if_false, h1, if_true]
        exact ih _ h
      · simp only [h0, if_false, h1, Bool.false_eq_true, if_false]
        apply ih
        simp only [List.map_append, List.map_cons, List.map_nil]
        refine List.Nodup.append h (by simp) ?_
        intro a ha hb
        simp only [List.mem_singleton] at hb
        rw [hb] at ha
        have hnot : s.sid ∉ st.1.map Prod.fst := by simpa [hasKey_iff] using h1
        exact hnot ha

theorem registerFrom_eq_of_fresh (spans : List Span)
    (st : List (String × SpanNode) × List String)
    (hne : ∀ s ∈ spans, s.sid ≠ "")
    (hnd : (spans.map Span.sid).Nodup)
    (hfresh : ∀ s ∈ spans, hasKey st.1 s.sid = false) :
    registerFrom st spans =
      (st.1 ++ spans.map (fun s => (s.sid, spanToNode s)), st.2) := by
  induction spans generalizing st with
  | nil => simp [registerFrom]
  | cons s rest ih =>
    rw [registerFrom_cons]
    unfold registerStep
    have h0 : s.sid ≠ "" := hne s (by simp)
    have h1 : hasKey st.1 s.sid = false := hfresh s (by simp)
    simp only [h0, if_false, h1, Bool.false_eq_true, if_false]
    rw [List.map_cons] at hnd
    have hpair := List.nodup_cons.mp hnd
    have hnds : s.sid ∉ rest.map Span.sid := hpair.1
    have hrest := ih (st.1 ++ [(s.sid, spanToNode s)], st.2)
      (fun t ht => hne t (by simp [ht]))
      hpair.2
      (fun t ht => by
        show hasKey (st.1 ++ [(s.sid, spanToNode s)]) t.sid = false
        have hts : s.sid ≠ t.sid := by
          intro he
          exact hnds (List.mem_map.mpr ⟨t, ht, he.symm⟩)
        rw [hasKey_append_single hts]
        exact hfresh t (by simp [ht]))
    rw [hrest]
    simp

theorem registerFrom_warn_nil (spans : List Span)
    (st : List (String × SpanNode) × List String)
    (hnd : ((spans.map Span.sid).filter (fun x => x != "")).Nodup)
    (hfresh : ∀ s ∈ spans, s.sid ≠ "" → hasKey st.1 s.sid = false) :
    (registerFrom st spans).2 = st.2 := by
  induction spans generalizing st with
  | nil => simp [registerFrom]
  | cons s rest ih =>
    rw [registerFrom_cons]
    unfold registerStep
    by_cases h0 : s.sid = ""
    · simp only [h0, if_true]
      apply ih st (by simpa [h0] using hnd)
      exact fun t ht h => hfresh t (by simp [ht]) h
    · have h1 : hasKey st.1 s.sid = false := hfresh s (by simp) h0
      simp only [h0, if_false, h1, Bool.false_eq_true, if_false]
      have hcons : ((s.sid :: (rest.map Span.sid).filter (fun x => x != ""))).Nodup := by
        have := hnd
        simp only [List.map_cons, List.filter_cons] at this
        rwa [if_pos (by simpa using h0)] at this
      apply ih (st.1 ++ [(s.sid, spanToNode s)], st.2)
        ((List.nodup_cons.mp hcons).2)
      intro t ht hts
      show hasKey (st.1 ++ [(s.sid, spanToNode s)]) t.sid = false
      have hne : s.sid ≠ t.sid := by
        intro he
        apply (List.nodup_cons.mp hcons).1
        apply List.mem_filter.mpr
        exact ⟨List.mem_map.mpr ⟨t, ht, he.symm⟩, by simpa using h0⟩
      rw [hasKey_append_single hne]
      exact hfresh t (by simp [ht]) hts

theorem registerFrom_warn_mem (spans : List Span)
    (st : List (String × SpanNode) × List String) (d : String) (hd : d ≠ "")
    (h : (hasKey st.1 d = true ∧ 1 ≤ spans.countP (fun s => s.sid == d)) ∨
      2 ≤ spans.countP (fun s => s.sid == d)) :
    d ∈ (registerFrom st spans).2 := by
  induction spans generalizing st with
  | nil =>
    rcases h with ⟨_, hc⟩ | hc
    · rw [List.countP_nil] at hc
      omega
    · rw [List.countP_nil] at hc
      omega
  | cons s rest ih =>
    rw [registerFrom_cons]
    unfold registerStep
    by_cases h0 : s.sid = ""
    · have hsd : (s.sid == d) = false := by
        simp only [beq_eq_false_iff_ne, ne_eq, h0]
        exact fun he => hd he.symm
      simp only [h0, if_true]
      apply ih st
      rcases h with ⟨hk, hc⟩ | hc
      · exact Or.inl ⟨hk, by simpa [List.countP_cons, hsd] using hc⟩
      · exact Or.inr (by simpa [List.countP_cons, hsd] using hc)
    · by_cases h1 : hasKey st.1 s.sid
      · simp only [h0, if_false, h1, if_true]
        by_cases hsd : s.sid = d
        · subst hsd
          exact registerFrom_warn_mono (by simp)
        · have hb : (s.sid == d) = false := by simp [hsd]
          apply ih (st.1, st.2 ++ [s.sid])
          rcases h with ⟨hk, hc⟩ | hc
          · exact Or.inl ⟨hk, by simpa [List.countP_cons, hb] using hc⟩
          · exact Or.inr (by simpa [List.countP_cons, hb] using hc)
      · simp only [h0, if_false, h1, Bool.false_eq_true, if_false]
        by_cases hsd : s.sid = d
        · subst hsd
          apply ih (st.1 ++ [(s.sid, spanToNode s)], st.2)
          rcases h with ⟨hk0, _⟩ | hc
          · exact absurd hk0 h1
          · have hc1 : 1 ≤ rest.countP (fun t => t.sid == s.sid) := by
              rw [List.countP_cons] at hc
              simp only [beq_self_eq_true, if_true, decide_True] at hc
              omega
            refine Or.inl ⟨?_, hc1⟩
            show hasKey (st.1 ++ [(s.sid, spanToNode s)]) s.sid = true
            simp [hasKey_iff]
        · have hb : (s.sid == d) = false := by simp [hsd]
          apply ih (st.1 ++ [(s.sid, spanToNode s)], st.2)
          rcases h with ⟨hk0, hc⟩ | hc
          · refine Or.inl ⟨?_, by simpa [List.countP_cons, hb] using hc⟩
            show hasKey (st.1 ++ [(s.sid, spanToNode s)]) d = true
            rw [hasKey_append_single hsd]
            exact hk0
          · exact Or.inr (by simpa [List.countP_cons, hb] using hc)

theorem registerFrom_length (spans : List Span)
    (st : List (String × SpanNode) × List String) :
    (registerFrom st spans).1.length ≤ st.1.length + spans.length := by
  induction spans generalizing st with
  | nil => simp [registerFrom]
  | cons s rest ih =>
    rw [registerFrom_cons]
    unfold registerStep
    by_cases h0 : s.sid = ""
    · simp only [h0, if_true]
      calc (registerFrom st rest).1.length ≤ st.1.length + rest.length := ih st
        _ ≤ st.1.length + (s :: rest).length := by simp
    · by_cases h1 : hasKey st.1 s.sid
      · simp only [h0, if_false, h1, if_true]
        calc (registerFrom (st.1, st.2 ++ [s.sid]) rest).1.length
            ≤ st.1.length + rest.length := ih _
          _ ≤ st.1.length + (s :: rest).length := by simp
      · simp only [h0, if_false, h1, Bool.false_eq_true, if_false]
        calc (registerFrom (st.1 ++ [(s.sid, spanToNode s)], st.2) rest).1.length
            ≤ (st.1 ++ [(s.sid, spanToNode s)]).length + rest.length := ih _
          _ = st.1.length + (s :: rest).length := by
              simp only [List.length_append, List.length_cons, List.length_nil]
              omega

/-! Lemmas about the insertion of the root node into the mapping. -/

theorem keys_map_replace (m : List (String × SpanNode)) (k : String) (v : SpanNode) :
    (m.map (fun e => if e.1 = k then (k, v) else e)).map Prod.fst = m.map Prod.fst := by
  induction m with
  | nil => rfl
  | cons e rest ih =>
    by_cases he : e.1 = k
    · simp only [List.map_cons, if_pos he, ih]
      rw [← he]
    · simp only [List.map_cons, if_neg he, ih]

theorem keys_upsert (m : List (String × SpanNode)) (k : String) (v : SpanNode) :
    (upsert m k v).map Prod.fst =
      if hasKey m k then m.map Prod.fst else m.map Prod.fst ++ [k] := by
  unfold upsert
  by_cases h : hasKey m k
  · simp only [h, if_true]
    exact keys_map_replace m k v
  · simp only [h, Bool.false_eq_true, if_false, List.map_append, List.map_cons,
      List.map_nil]

theorem lookup_map_replace (m : List (String × SpanNode)) (k : String) (v : SpanNode) :
    lookupNode (m.map (fun e => if e.1 = k then (k, v) else e)) k =
      (lookupNode m k).map (fun _ => v) := by
  induction m with
  | nil => rfl
  | cons e rest ih =>
    by_cases he : e.1 = k
    · simp [lookupNode, List.find?_cons, if_pos he, he]
    · have hb : (e.1 == k) = false := by simp [he]
      simp only [List.map_cons, if_neg he]
      simp only [lookupNode, List.find?_cons, hb] at ih ⊢
      exact ih

theorem lookup_map_replace_ne (m : List (String × SpanNode)) (k k' : String)
    (v : SpanNode) (h : k' ≠ k) :
    lookupNode (m.map (fun e => if e.1 = k then (k, v) else e)) k' =
      lookupNode m k' := by
  induction m with
  | nil => rfl
  | cons e rest ih =>
    by_cases he : e.1 = k
    · have hb : (k == k') = false := by
        simp only [beq_eq_false_iff_ne, ne_eq]
        exact fun hkk => h hkk.symm
      have hb' : (e.1 == k') = false := by
        rw [he]
        exact hb
      simp only [List.map_cons, if_pos he]
      simp only [lookupNode, List.find?_cons, hb, hb'] at ih ⊢
      exact ih
    · simp only [List.map_cons, if_neg he]
      by_cases he' : e.1 = k'
      · simp [lookupNode, List.find?_cons, he']
      · have hb : (e.1 == k') = false := by simp [he']
        simp only [lookupNode, List.find?_cons, hb] at ih ⊢
        exact ih

theorem lookup_upsert_self (m : List (String × SpanNode)) (k : String) (v : SpanNode) :
    lookupNode (upsert m k v) k = some v := by
  unfold upsert
  by_cases h : hasKey m k
  · simp only [h, if_true]
    rw [lookup_map_replace]
    obtain ⟨n, hn⟩ := lookupNode_isSome_of_hasKey h
    rw [hn]
    rfl
  · simp only [h, Bool.false_eq_true, if_false]
    rw [lookupNode_append, lookupNode_eq_none_of_not_hasKey (by simpa using h)]
    simp [lookupNode, List.find?_cons]

theorem lookup_upsert_ne (m : List (String × SpanNode)) (k k' : String)
    (v : SpanNode) (h : k' ≠ k) :
    lookupNode (upsert m k v) k' = lookupNode m k' := by
  unfold upsert
  by_cases hk : hasKey m k
  · simp only [hk, if_true]
    exact lookup_map_replace_ne m k k' v h
  · simp only [hk, Bool.false_eq_true, if_false]
    rw [lookupNode_append]
    have : lookupNode [(k, v)] k' = none := by
      have hb : (k == k') = false := by
        simp only [beq_eq_false_iff_ne, ne_eq]
        exact fun hkk => h hkk.symm
      simp [lookupNode, List.find?_cons, hb]
    rw [this]
    cases lookupNode m k' <;> rfl

theorem filter_map_replace (m : List (String × SpanNode)) (k : String) (v : SpanNode) :
    (m.map (fun e => if e.1 = k then (k, v) else e)).filter (fun e => e.1 != k) =
      m.filter (fun e => e.1 != k) := by
  induction m with
  | nil => rfl
  | cons e rest ih =>
    by_cases he : e.1 = k
    · simp only [List.map_cons, if_pos he, List.filter_cons]
      have h1 : ((k, v).1 != k) = false := by simp
      have h2 : (e.1 != k) = false := by simp [he]
      rw [h1, h2]
      simpa using ih
    · simp only [List.map_cons, if_neg he, List.filter_cons]
      have h1 : (e.1 != k) = true := by simp [he]
      rw [h1]
      simpa using ih

theorem nonRootKeys_upsert (m : List (String × SpanNode)) (rid : String)
    (v : SpanNode) : nonRootKeys (upsert m rid v) rid = nonRootKeys m rid := by
  unfold nonRootKeys upsert
  by_cases h : hasKey m rid
  · simp only [h, if_true]
    rw [filter_map_replace]
  · simp only [h, Bool.false_eq_true, if_false, List.filter_append]
    have : ([(rid, v)].filter (fun e => e.1 != rid)) = [] := by simp
    rw [this, List.append_nil]

/-! Lemmas about children lists and reachability. -/

theorem mem_childKeys_iff {m : List (String × SpanNode)} {rid p c : String} :
    c ∈ childKeys m rid p ↔
      ∃ n, (c, n) ∈ m ∧ c ≠ rid ∧ parentTarget m rid n = p := by
  unfold childKeys
  simp only [List.mem_map, List.mem_filter, decide_eq_true_eq]
  constructor
  · rintro ⟨e, ⟨hem, hne, hpt⟩, hfst⟩
    refine ⟨e.2, ?_, ?_, hpt⟩
    · rw [← hfst]
      exact hem
    · rw [← hfst]
      exact hne
  · rintro ⟨n, hmem, hne, hpt⟩
    exact ⟨(c, n), ⟨hmem, hne, hpt⟩, rfl⟩

theorem mem_of_mem_childKeys {m : List (String × SpanNode)} {rid p c : String}
    (h : c ∈ childKeys m rid p) : c ∈ m.map Prod.fst ∧ c ≠ rid := by
  obtain ⟨n, hmem, hne, _⟩ := mem_childKeys_iff.mp h
  exact ⟨List.mem_map.mpr ⟨(c, n), hmem, rfl⟩, hne⟩

theorem chainOk_reaches {m : List (String × SpanNode)} {rid : String} :
    ∀ (fuel : Nat) (k : String), chainOk m rid fuel k = true → Reaches m rid k := by
  intro fuel
  induction fuel with
  | zero =>
    intro k h
    have : k = rid := by simpa [chainOk] using h
    rw [this]
    exact Relation.ReflTransGen.refl
  | succ n ih =>
    intro k h
    by_cases hk : k = rid
    · rw [hk]
      exact Relation.ReflTransGen.refl
    · have hb : (k == rid) = false := by simp [hk]
      rw [chainOk, hb] at h
      simp only [Bool.false_eq_true, if_false] at h
      cases hl : lookupNode m k with
      | none => rw [hl] at h; exact absurd h (by simp)
      | some n' =>
        rw [hl] at h
        have hreach : Reaches m rid (parentTarget m rid n') := ih _ h
        apply Relation.ReflTransGen.tail hreach
        unfold ChildRel
        apply mem_childKeys_iff.mpr
        exact ⟨n', lookupNode_mem hl, hk, rfl⟩

theorem reaches_mem {m : List (String × SpanNode)} {rid k : String}
    (h : Reaches m rid k) : k = rid ∨ (k ∈ m.map Prod.fst ∧ k ≠ rid) := by
  induction h with
  | refl => exact Or.inl rfl
  | tail _ hbc ih =>
    exact Or.inr (mem_of_mem_childKeys hbc)

theorem mem_value_eq_of_keys_nodup {m : List (String × SpanNode)} {k : String}
    {a b : SpanNode} (hnd : (m.map Prod.fst).Nodup)
    (ha : (k, a) ∈ m) (hb : (k, b) ∈ m) : a = b := by
  induction m with
  | nil => cases ha
  | cons e rest ih =>
    rw [List.map_cons, List.nodup_cons] at hnd
    rcases List.mem_cons.mp ha with ha1 | ha1 <;>
      rcases List.mem_cons.mp hb with hb1 | hb1
    · exact congrArg Prod.snd (ha1.trans hb1.symm)
    · exfalso
      apply hnd.1
      have : e.1 = k := by rw [← ha1]
      rw [this]
      exact List.mem_map.mpr ⟨(k, b), hb1, rfl⟩
    · exfalso
      apply hnd.1
      have : e.1 = k := by rw [← hb1]
      rw [this]
      exact List.mem_map.mpr ⟨(k, a), ha1, rfl⟩
    · exact ih hnd.2 ha1 hb1

theorem buildNodeMap_keys_nodup (spans : List Span) (r : Option String) :
    ((buildNodeMap spans r).1.map Prod.fst).Nodup := by
  unfold buildNodeMap
  simp only
  rw [keys_upsert]
  have hreg : (((registerSpans spans).1).map Prod.fst).Nodup :=
    registerFrom_keys_nodup spans ([], []) (by simp)
  by_cases h : hasKey (registerSpans spans).1 (rootId r)
  · simpa [h] using hreg
  · simp only [h, Bool.false_eq_true, if_false]
    apply List.Nodup.append hreg (by simp)
    intro a ha hb
    simp only [List.mem_singleton] at hb
    rw [hb] at ha
    have hnot : rootId r ∉ (registerSpans spans).1.map Prod.fst := by
      simpa [hasKey_iff] using h
    exact hnot ha

theorem registerFrom_lookup_found (spans : List Span)
    (st : List (String × SpanNode) × List String) (d : String)
    (hk : hasKey st.1 d = true) :
    lookupNode (registerFrom st spans).1 d = lookupNode st.1 d := by
  obtain ⟨tl, htl⟩ := registerFrom_map_ext spans st
  rw [htl, lookupNode_append]
  obtain ⟨n, hn⟩ := lookupNode_isSome_of_hasKey hk
  rw [hn]
  rfl

theorem registerFrom_lookup_fresh (spans : List Span)
    (st : List (String × SpanNode) × List String) (d : String) (hd : d ≠ "")
    (hk : hasKey st.1 d = false) :
    lookupNode (registerFrom st spans).1 d =
      (spans.find? (fun s => s.sid == d)).map spanToNode := by
  induction spans generalizing st with
  | nil =>
    simp only [registerFrom, List.foldl_nil, List.find?_nil, Option.map_none']
    exact lookupNode_eq_none_of_not_hasKey hk
  | cons s rest ih =>
    rw [registerFrom_cons]
    unfold registerStep
    by_cases h0 : s.sid = ""
    · have hb : ¬((fun s : Span => s.sid == d) s = true) := by
        simp [h0]
        exact fun he => hd he.symm
      have hfind : List.find? (fun s : Span => s.sid == d) (s :: rest) =
          List.find? (fun s : Span => s.sid == d) rest :=
        List.find?_cons_of_neg rest hb
      simp only [h0, if_true]
      rw [ih st hk, hfind]
    · by_cases h1 : hasKey st.1 s.sid
      · by_cases hsd : s.sid = d
        · rw [hsd] at h1
          rw [h1] at hk
          exact absurd hk (by simp)
        · have hb : ¬((fun s : Span => s.sid == d) s = true) := by simp [hsd]
          have hfind : List.find? (fun s : Span => s.sid == d) (s :: rest) =
              List.find? (fun s : Span => s.sid == d) rest :=
            List.find?_cons_of_neg rest hb
          simp only [h0, if_false, h1, if_true]
          rw [ih (st.1, st.2 ++ [s.sid]) hk, hfind]
      · simp only [h0, if_false, h1, Bool.false_eq_true, if_false]
        by_cases hsd : s.sid = d
        · have hb : (fun s : Span => s.sid == d) s = true := by simp [hsd]
          have hfind : List.find? (fun s : Span => s.sid == d) (s :: rest) =
              some s :=
            List.find?_cons_of_pos rest hb
          rw [hfind]
          have hk2 : hasKey (st.1 ++ [(s.sid, spanToNode s)]) d = true := by
            rw [hasKey_iff]
            simp [hsd]
          rw [registerFrom_lookup_found rest _ d hk2, lookupNode_append,
            lookupNode_eq_none_of_not_hasKey hk]
          have hone : lookupNode [(s.sid, spanToNode s)] d = some (spanToNode s) := by
            simp [lookupNode, List.find?_cons, hsd]
          rw [hone]
          rfl
        · have hb : ¬((fun s : Span => s.sid == d) s = true) := by simp [hsd]
          have hfind : List.find? (fun s : Span => s.sid == d) (s :: rest) =
              List.find? (fun s : Span => s.sid == d) rest :=
            List.find?_cons_of_neg rest hb
          rw [hfind]
          have hk2 : hasKey (st.1 ++ [(s.sid, spanToNode s)]) d = false := by
            rw [hasKey_append_single hsd]
            exact hk
          exact ih (st.1 ++ [(s.sid, spanToNode s)], st.2) hk2

theorem childKeys_nodup {m : List (String × SpanNode)} {rid p : String}
    (h : (m.map Prod.fst).Nodup) : (childKeys m rid p).Nodup := by
  unfold childKeys
  exact List.Nodup.sublist (List.Sublist.map Prod.fst (List.filter_sublist m)) h

theorem mem_nonRootKeys_iff {m : List (String × SpanNode)} {rid k : String} :
    k ∈ nonRootKeys m rid ↔ k ∈ m.map Prod.fst ∧ k ≠ rid := by
  unfold nonRootKeys
  simp only [List.mem_map, List.mem_filter, bne_iff_ne, ne_eq]
  constructor
  · rintro ⟨e, ⟨hem, hne⟩, hfst⟩
    exact ⟨⟨e, hem, hfst⟩, by rw [← hfst]; exact hne⟩
  · rintro ⟨⟨e, hem, hfst⟩, hne⟩
    exact ⟨e, ⟨hem, by rw [hfst]; exact hne⟩, hfst⟩

/-! Lemmas for the timeline layout. -/

theorem foldMin_le (xs : List ℚ) (x : ℚ) :
    (∀ y ∈ xs, foldMin x xs ≤ y) ∧ foldMin x xs ≤ x := by
  induction xs generalizing x with
  | nil => exact ⟨by simp, le_refl x⟩
  | cons c l ih =>
    have h := ih (min x c)
    refine ⟨?_, ?_⟩
    · intro y hy
      rcases List.mem_cons.mp hy with hy1 | hy1
      · rw [hy1]
        exact le_trans h.2 (min_le_right x c)
      · exact h.1 y hy1
    · exact le_trans h.2 (min_le_left x c)

theorem minStartOf_le {spans : List Span} {s : Span} (h : s ∈ spans) :
    minStartOf spans ≤ s.startTS := by
  cases spans with
  | nil => cases h
  | cons s0 rest =>
    unfold minStartOf
    rcases List.mem_cons.mp h with h1 | h1
    · rw [h1]
      exact (foldMin_le (rest.map Span.startTS) s0.startTS).2
    · exact (foldMin_le (rest.map Span.startTS) s0.startTS).1 s.startTS
        (List.mem_map.mpr ⟨s, h1, rfl⟩)

theorem pyInt_eq_floor_of_nonneg {q : ℚ} (h : 0 ≤ q) : pyInt q = ⌊q⌋ :=
  if_pos h

theorem max_one_pyInt (q : ℚ) : max 1 (pyInt q) = max 1 ⌊q⌋ := by
  by_cases h : 0 ≤ q
  · rw [pyInt_eq_floor_of_nonneg h]
  · rw [pyInt, if_neg h]
    push_neg at h
    have hceil : ⌈q⌉ ≤ 0 := Int.ceil_le.mpr (by exact_mod_cast h.le)
    have hfl : ⌊q⌋ ≤ 0 := le_trans (Int.floor_le_ceil q) hceil
    rw [max_eq_left (by omega), max_eq_left (by omega)]

/-! Claim theorems. -/

/-- Claim C10: calling _build_span_tree with the empty string as root span id
behaves exactly like calling it with None: the root id is the synthetic
literal root, the root node is identical, and the resulting node mapping and
diagnostics coincide for every span list. -/
theorem emptyRootBehavesAsNone (spans : List Span) :
    rootId (some "") = "root" ∧ rootNode (some "") = rootNode none ∧
    buildNodeMap spans (some "") = buildNodeMap spans none := by
  refine ⟨rfl, rfl, ?_⟩
  unfold buildNodeMap
  rfl

/-- Claim C3 counterexample: the truncation threshold in the code is 50, not
30: a 60 code point description renders with length 50, not 30. -/
theorem descTruncation_cex :
    d60.length = 60 ∧ (renderDesc d60).length = 50 ∧
    (renderDesc d60).length ≠ 30 := by
  refine ⟨by decide, by decide, by decide⟩

/-- Claim C3 (amended): the fixed threshold MAX_DESCRIPTION_LENGTH is 50: a
description longer than 50 code points is truncated to 47 code points with
three dots appended, so the rendered description has length exactly 50 and
ends in three dots; in particular a 60 code point description renders as a
50 code point string ending in three dots. -/
theorem descTruncation (d : String) (h : MAX_DESCRIPTION_LENGTH < d.length) :
    (renderDesc d).length = MAX_DESCRIPTION_LENGTH ∧
    ['.', '.', '.'] <:+ (renderDesc d).data := by
  have hdata : MAX_DESCRIPTION_LENGTH < d.data.length := h
  unfold renderDesc truncateDesc
  rw [if_pos hdata]
  constructor
  · show (d.data.take (MAX_DESCRIPTION_LENGTH - 3) ++ ['.', '.', '.']).length =
      MAX_DESCRIPTION_LENGTH
    rw [List.length_append, List.length_take]
    have : MAX_DESCRIPTION_LENGTH = 50 := rfl
    rw [this] at hdata ⊢
    simp only [List.length_cons, List.length_nil]
    omega
  · exact List.suffix_append _ _

/-- Claim C3 witness: the amended truncation property at the 60 code point
description. -/
theorem descTruncation_witness :
    (renderDesc d60).length = MAX_DESCRIPTION_LENGTH ∧
    ['.', '.', '.'] <:+ (renderDesc d60).data :=
  descTruncation d60 (by decide)

/-- Claim C6: for a nonempty span list whose computed total duration (the
maximum end instant minus the minimum start instant) is not positive, the
timeline renderer reports the cannot render outcome and computes no bar, so
the division by the total duration never runs on a nonpositive divisor. -/
theorem timelineGuard (spans : List Span) (hne : spans ≠ [])
    (hz : totalDuration spans ≤ 0) :
    renderTimeline spans = some TimelineResult.cannotRender := by
  cases spans with
  | nil => exact absurd rfl hne
  | cons s rest =>
    show (if totalDuration (s :: rest) ≤ 0 then some TimelineResult.cannotRender
      else some (TimelineResult.rendered ((s :: rest).map
        (timelineBar (minStartOf (s :: rest)) (totalDuration (s :: rest)))))) =
      some TimelineResult.cannotRender
    rw [if_pos hz]

/-- Claim C6 witness: a single span with identical start and end instants
yields the cannot render outcome. -/
theorem timelineGuard_witness :
    renderTimeline [exTiny] = some TimelineResult.cannotRender :=
  timelineGuard [exTiny] (List.cons_ne_nil _ _)
    (by norm_num [totalDuration, maxEndOf, minStartOf, foldMax, foldMin,
      Span.startTS, Span.endTS, exTiny])

/-- Claim C2 counterexample: the root node is inserted only after the
registration loop: an input span whose id equals the root id is registered
(not skipped), no duplicate diagnostic is emitted for it, and the root then
silently overwrites it. -/
theorem rootInsertionOrder_cex :
    registerSpans [rootCollisionSpan] =
      ([("root", spanToNode rootCollisionSpan)], []) ∧
    (buildNodeMap [rootCollisionSpan] none).2 = [] ∧
    lookupNode (buildNodeMap [rootCollisionSpan] none).1 "root" =
      some (rootNode none) ∧
    spanToNode rootCollisionSpan ≠ rootNode none := by
  refine ⟨rfl, rfl, rfl, ?_⟩
  intro h
  have := congrArg SpanNode.op h
  simp [spanToNode, rootNode, rootCollisionSpan] at this

/-- Claim C2 (amended): the root node is inserted into the mapping only after
all input spans are registered: when the nonempty span ids are pairwise
distinct no duplicate diagnostic is emitted at all, even when a span id
collides with the root id; such a colliding span is registered normally and
then silently overwritten by the root node, so the mapping holds the root
node attributes at the root id. -/
theorem rootInsertionOrder (spans : List Span) (r : Option String)
    (hnd : ((spans.map Span.sid).filter (fun x => x != "")).Nodup) :
    (buildNodeMap spans r).2 = [] ∧
    lookupNode (buildNodeMap spans r).1 (rootId r) = some (rootNode r) := by
  constructor
  · show (registerSpans spans).2 = []
    exact registerFrom_warn_nil spans ([], []) hnd (fun s hs h => rfl)
  · show lookupNode (upsert (registerSpans spans).1 (rootId r) (rootNode r))
      (rootId r) = some (rootNode r)
    exact lookup_upsert_self _ _ _

/-- Claim C2 witness: the amended property at a single span colliding with
the synthetic root id. -/
theorem rootInsertionOrder_witness :
    (buildNodeMap [rootCollisionSpan] none).2 = [] ∧
    lookupNode (buildNodeMap [rootCollisionSpan] none).1 (rootId none) =
      some (rootNode none) :=
  rootInsertionOrder [rootCollisionSpan] none (by decide)

/-- Claim C7: when the total duration is positive the timeline computes, for
each span in input order, the bar offset as the floor of the start offset
fraction scaled by the bar width 40, and the bar length as the maximum of 1
and the floor of the duration fraction scaled by 40, so every bar length is
at least one unit, including zero duration spans. -/
theorem timelineBars (spans : List Span) (hne : spans ≠ [])
    (hpos : 0 < totalDuration spans) :
    renderTimeline spans = some (TimelineResult.rendered (spans.map (fun s =>
      (⌊(s.startTS - minStartOf spans) / totalDuration spans * (BAR_WIDTH : ℚ)⌋,
       max 1 ⌊(s.endTS - s.startTS) / totalDuration spans * (BAR_WIDTH : ℚ)⌋)))) ∧
    ∀ s ∈ spans,
      (1 : Int) ≤
        max 1 ⌊(s.endTS - s.startTS) / totalDuration spans * (BAR_WIDTH : ℚ)⌋ := by
  constructor
  · cases spans with
    | nil => exact absurd rfl hne
    | cons s rest =>
      show (if totalDuration (s :: rest) ≤ 0 then some TimelineResult.cannotRender
        else some (TimelineResult.rendered ((s :: rest).map
          (timelineBar (minStartOf (s :: rest)) (totalDuration (s :: rest)))))) = _
      rw [if_neg (not_le.mpr hpos)]
      have hmap : (s :: rest).map
          (timelineBar (minStartOf (s :: rest)) (totalDuration (s :: rest))) =
          (s :: rest).map (fun x =>
            (⌊(x.startTS - minStartOf (s :: rest)) / totalDuration (s :: rest) *
                (BAR_WIDTH : ℚ)⌋,
             max 1 ⌊(x.endTS - x.startTS) / totalDuration (s :: rest) *
                (BAR_WIDTH : ℚ)⌋)) := by
        apply List.map_congr_left
        intro x hx
        show (pyInt ((x.startTS - minStartOf (s :: rest)) /
            totalDuration (s :: rest) * (BAR_WIDTH : ℚ)),
          max 1 (pyInt ((x.endTS - x.startTS) /
            totalDuration (s :: rest) * (BAR_WIDTH : ℚ)))) = _
        have hoff : (0:ℚ) ≤ (x.startTS - minStartOf (s :: rest)) /
            totalDuration (s :: rest) * (BAR_WIDTH : ℚ) := by
          apply mul_nonneg
          · apply div_nonneg
            · have := minStartOf_le hx
              linarith
            · exact le_of_lt hpos
          · norm_num [BAR_WIDTH]
        rw [pyInt_eq_floor_of_nonneg hoff, max_one_pyInt]
      rw [hmap]
  · intro x hx
    exact le_max_left _ _

/-- Claim C7 witness: a full axis span and a zero duration span in the
middle of a ten second axis get the bars offset 0 length 40 and offset 20
length 1. -/
theorem timelineBars_witness :
    renderTimeline [exLong, exDot] =
      some (TimelineResult.rendered [(0, 40), (20, 1)]) := by
  have h := (timelineBars [exLong, exDot] (List.cons_ne_nil _ _)
    (by norm_num [totalDuration, maxEndOf, minStartOf, foldMax, foldMin,
      Span.startTS, Span.endTS, exLong, exDot])).1
  rw [h]
  norm_num [exLong, exDot, Span.startTS, Span.endTS, minStartOf, foldMin,
    totalDuration, maxEndOf, foldMax, BAR_WIDTH]

/-- Claim C8: the trace wide event merge sorts the full event set ascending
by its string typed timestamp before truncating to the caller supplied
maximum: the output is sorted, has length the minimum of the cap and the
input size, the sort permutes the full input, and every kept event has a
timestamp at most that of every event cut off by the truncation, so the
output is exactly the chronologically earliest events; the two scenario
events given out of order merge back into ascending order. -/
theorem traceMergeOrdering :
    (∀ (events : List TraceEvent) (n : Nat),
      List.Sorted evLe (mergeTraceEvents events n) ∧
      (mergeTraceEvents events n).length = min n events.length ∧
      (events.insertionSort evLe).Perm events ∧
      (∀ x ∈ mergeTraceEvents events n,
        ∀ y ∈ (events.insertionSort evLe).drop n, x.tsKey ≤ y.tsKey)) ∧
    mergeTraceEvents [evLate, evEarly] 25 = [evEarly, evLate] := by
  constructor
  · intro events n
    have hsorted : List.Sorted evLe (events.insertionSort evLe) :=
      List.sorted_insertionSort evLe events
    refine ⟨?_, ?_, List.perm_insertionSort evLe events, ?_⟩
    · exact List.Pairwise.sublist (List.take_sublist n _) hsorted
    · show ((events.insertionSort evLe).take n).length = min n events.length
      rw [List.length_take, (List.perm_insertionSort evLe events).length_eq]
    · intro x hx y hy
      have hpair : List.Pairwise evLe
          ((events.insertionSort evLe).take n ++
            (events.insertionSort evLe).drop n) := by
        rw [List.take_append_drop]
        exact hsorted
      have hdata : evLe x y := (List.pairwise_append.mp hpair).2.2 x hx y hy
      exact String.le_iff_toList_le.mpr hdata
  · decide

/-- Claim C9: the trailing summary line reports the number of spans that
survived the optional op filter (the input count, after filtering and
before tree construction) together with the formatted transaction
duration; the tree node count is bounded by that filtered count, and there
are inputs (duplicate span ids) on which the tree has strictly fewer nodes
while the summary still reports the filtered input count. -/
theorem summaryCount (spans : List Span) (op : Option String)
    (r : Option String) (dur : ℚ)
    (h1 : spans ≠ []) (h2 : applyOpFilter op spans ≠ []) :
    showSpansSummary spans op r dur =
      some (renderSummaryLine (applyOpFilter op spans).length dur) ∧
    treeNonRootCount (applyOpFilter op spans) r ≤ (applyOpFilter op spans).length ∧
    (∃ sp : List Span, treeNonRootCount sp none < sp.length ∧
      showSpansSummary sp none none dur =
        some (renderSummaryLine sp.length dur)) := by
  refine ⟨?_, ?_, ?_⟩
  · show (if spans = [] then none
      else if applyOpFilter op spans = [] then none
      else some (renderSummaryLine (applyOpFilter op spans).length dur)) =
      some (renderSummaryLine (applyOpFilter op spans).length dur)
    rw [if_neg h1, if_neg h2]
  · show (nonRootKeys (upsert (registerSpans (applyOpFilter op spans)).1
      (rootId r) (rootNode r)) (rootId r)).length ≤ (applyOpFilter op spans).length
    rw [nonRootKeys_upsert]
    calc (nonRootKeys (registerSpans (applyOpFilter op spans)).1 (rootId r)).length
        ≤ (registerSpans (applyOpFilter op spans)).1.length := by
          unfold nonRootKeys
          rw [List.length_map]
          exact List.length_filter_le _ _
      _ ≤ ([] : List (String × SpanNode)).length + (applyOpFilter op spans).length :=
          registerFrom_length _ _
      _ = (applyOpFilter op spans).length := by simp
  · refine ⟨[{ span_id := some "dup" }, { span_id := some "dup" }], by decide, rfl⟩

/-- Claim C4 counterexample: when the duplicated span id equals the root id,
the single kept node carries the root node attributes, not the attributes of
the first encountered span, refuting the claim as universally stated. -/
theorem duplicateSpanPolicy_cex :
    2 ≤ [colFirst, colSecond].countP (fun s => s.sid == "r") ∧
    lookupNode (buildNodeMap [colFirst, colSecond] (some "r")).1 "r" =
      some (rootNode (some "r")) ∧
    rootNode (some "r") ≠ spanToNode colFirst := by
  refine ⟨by decide, rfl, ?_⟩
  intro h
  have := congrArg SpanNode.op h
  simp [spanToNode, rootNode, colFirst] at this

/-- Claim C4 (amended): for every list containing two spans with the same
nonempty span id that is distinct from the root id, the built mapping keeps
exactly one node for that id, carrying the attributes of the first
encountered span; the later duplicate is absent, a duplicate warning
diagnostic is emitted for it, and the build still returns a full result. -/
theorem duplicateSpanPolicy (spans : List Span) (r : Option String) (d : String)
    (hd : d ≠ "") (hdr : d ≠ rootId r)
    (hc : 2 ≤ spans.countP (fun s => s.sid == d)) :
    lookupNode (buildNodeMap spans r).1 d =
      (spans.find? (fun s => s.sid == d)).map spanToNode ∧
    ((buildNodeMap spans r).1.map Prod.fst).count d = 1 ∧
    d ∈ (buildNodeMap spans r).2 := by
  have hlk : lookupNode (buildNodeMap spans r).1 d =
      lookupNode (registerSpans spans).1 d := by
    show lookupNode (upsert (registerSpans spans).1 (rootId r) (rootNode r)) d = _
    exact lookup_upsert_ne _ _ _ _ hdr
  have hfresh : lookupNode (registerSpans spans).1 d =
      (spans.find? (fun s => s.sid == d)).map spanToNode :=
    registerFrom_lookup_fresh spans ([], []) d hd rfl
  refine ⟨hlk.trans hfresh, ?_, ?_⟩
  · have hmem : d ∈ (registerSpans spans).1.map Prod.fst := by
      have hpos : 0 < spans.countP (fun s => s.sid == d) := by omega
      obtain ⟨s0, hs0, hps⟩ := List.countP_pos_iff.mp hpos
      have hsome : (spans.find? (fun s => s.sid == d)).isSome :=
        List.find?_isSome.mpr ⟨s0, hs0, hps⟩
      obtain ⟨sf, hsf⟩ := Option.isSome_iff_exists.mp hsome
      have hlook : lookupNode (registerSpans spans).1 d = some (spanToNode sf) := by
        rw [hfresh, hsf]
        rfl
      exact List.mem_map.mpr ⟨(d, spanToNode sf), lookupNode_mem hlook, rfl⟩
    have hnd : ((registerSpans spans).1.map Prod.fst).Nodup :=
      registerFrom_keys_nodup spans ([], []) (by simp)
    have hcount1 : ((registerSpans spans).1.map Prod.fst).count d = 1 := by
      have hle := List.nodup_iff_count_le_one.mp hnd d
      have hpos := List.count_pos_iff.mpr hmem
      omega
    show ((upsert (registerSpans spans).1 (rootId r) (rootNode r)).map
      Prod.fst).count d = 1
    rw [keys_upsert]
    by_cases hk : hasKey (registerSpans spans).1 (rootId r)
    · rw [if_pos hk]
      exact hcount1
    · rw [if_neg hk, List.count_append, hcount1]
      have hz : List.count d [rootId r] = 0 := by
        rw [List.count_eq_zero]
        simp [hdr]
      rw [hz]
  · show d ∈ (registerSpans spans).2
    exact registerFrom_warn_mem spans ([], []) d hd (Or.inr hc)

/-- Claim C4 witness: the amended duplicate policy at the two scenario spans
sharing the id dup under the root id root. -/
theorem duplicateSpanPolicy_witness :
    lookupNode (buildNodeMap [dupFirst, dupSecond] (some "root")).1 "dup" =
      ([dupFirst, dupSecond].find? (fun s => s.sid == "dup")).map spanToNode ∧
    ((buildNodeMap [dupFirst, dupSecond] (some "root")).1.map Prod.fst).count
      "dup" = 1 ∧
    "dup" ∈ (buildNodeMap [dupFirst, dupSecond] (some "root")).2 :=
  duplicateSpanPolicy [dupFirst, dupSecond] (some "root") "dup"
    (by decide) (by decide) (by decide)

/-- Claim C5: every registered non root node sits in exactly one children
list: when its declared parent id is nonempty and present among the mapping
keys (which include the root id) it lands in the children list of that key,
and when the declared parent is absent, empty, or unknown it lands in the
children list of the root, and in all cases it appears exactly once there
and in no other children list. -/
theorem childPlacement (spans : List Span) (r : Option String) (k : String)
    (n : SpanNode) (hmem : (k, n) ∈ (buildNodeMap spans r).1)
    (hk : k ≠ rootId r) :
    (∃! p, k ∈ childKeys (buildNodeMap spans r).1 (rootId r) p) ∧
    (childKeys (buildNodeMap spans r).1 (rootId r)
      (parentTarget (buildNodeMap spans r).1 (rootId r) n)).count k = 1 ∧
    (∀ p, n.parent_span_id = some p → p ≠ "" →
      hasKey (buildNodeMap spans r).1 p = true →
      k ∈ childKeys (buildNodeMap spans r).1 (rootId r) p) ∧
    ((n.parent_span_id = none ∨ n.parent_span_id = some "" ∨
      (∃ p, n.parent_span_id = some p ∧
        hasKey (buildNodeMap spans r).1 p = false)) →
      k ∈ childKeys (buildNodeMap spans r).1 (rootId r) (rootId r)) := by
  have hnd := buildNodeMap_keys_nodup spans r
  have hin : k ∈ childKeys (buildNodeMap spans r).1 (rootId r)
      (parentTarget (buildNodeMap spans r).1 (rootId r) n) :=
    mem_childKeys_iff.mpr ⟨n, hmem, hk, rfl⟩
  have huniq : ∀ p, k ∈ childKeys (buildNodeMap spans r).1 (rootId r) p →
      p = parentTarget (buildNodeMap spans r).1 (rootId r) n := by
    intro p hp
    obtain ⟨n', hmem', hk', hpt⟩ := mem_childKeys_iff.mp hp
    have hn : n' = n := mem_value_eq_of_keys_nodup hnd hmem' hmem
    rw [← hpt, hn]
  refine ⟨⟨_, hin, huniq⟩, ?_, ?_, ?_⟩
  · have hle : ∀ a, (childKeys (buildNodeMap spans r).1 (rootId r)
        (parentTarget (buildNodeMap spans r).1 (rootId r) n)).count a ≤ 1 :=
      List.nodup_iff_count_le_one.mp (childKeys_nodup hnd)
    have hpos := List.count_pos_iff.mpr hin
    have hk1 := hle k
    omega
  · intro p hp hpne hpk
    have ht : parentTarget (buildNodeMap spans r).1 (rootId r) n = p := by
      unfold parentTarget
      rw [hp]
      show (if p ≠ "" ∧ hasKey (buildNodeMap spans r).1 p then p else rootId r) = p
      rw [if_pos ⟨hpne, hpk⟩]
    rw [ht] at hin
    exact hin
  · intro hcase
    have ht : parentTarget (buildNodeMap spans r).1 (rootId r) n = rootId r := by
      unfold parentTarget
      rcases hcase with h | h | ⟨p, hp, hpk⟩
      · rw [h]
      · rw [h]
        show (if ("" : String) ≠ "" ∧ hasKey (buildNodeMap spans r).1 "" then ""
          else rootId r) = rootId r
        rw [if_neg]
        rintro ⟨h1, -⟩
        exact h1 rfl
      · rw [hp]
        show (if p ≠ "" ∧ hasKey (buildNodeMap spans r).1 p then p
          else rootId r) = rootId r
        rw [if_neg]
        rintro ⟨-, h2⟩
        rw [hpk] at h2
        cases h2
    rw [ht] at hin
    exact hin

/-- Claim C5 witness: the child placement property at a single span whose
declared parent is the root id. -/
theorem childPlacement_witness :
    (∃! p, "child" ∈ childKeys (buildNodeMap [childSpan] (some "root")).1
      (rootId (some "root")) p) ∧
    (childKeys (buildNodeMap [childSpan] (some "root")).1 (rootId (some "root"))
      (parentTarget (buildNodeMap [childSpan] (some "root")).1
        (rootId (some "root")) (spanToNode childSpan))).count "child" = 1 ∧
    (∀ p, (spanToNode childSpan).parent_span_id = some p → p ≠ "" →
      hasKey (buildNodeMap [childSpan] (some "root")).1 p = true →
      "child" ∈ childKeys (buildNodeMap [childSpan] (some "root")).1
        (rootId (some "root")) p) ∧
    (((spanToNode childSpan).parent_span_id = none ∨
      (spanToNode childSpan).parent_span_id = some "" ∨
      (∃ p, (spanToNode childSpan).parent_span_id = some p ∧
        hasKey (buildNodeMap [childSpan] (some "root")).1 p = false)) →
      "child" ∈ childKeys (buildNodeMap [childSpan] (some "root")).1
        (rootId (some "root")) (rootId (some "root"))) :=
  childPlacement [childSpan] (some "root") "child" (spanToNode childSpan)
    (by
      show ("child", spanToNode childSpan) ∈
        [("child", spanToNode childSpan), ("root", rootNode (some "root"))]
      exact List.mem_cons_self _ _)
    (by decide)

/-- Claim C1 counterexample: two spans with unique nonempty ids whose parent
references form a cycle both end up in the node mapping, yet neither is
reachable from the returned root, so the reachable non root node count is
not the span count. -/
theorem spanTreeCompleteness_cex :
    (∀ s ∈ [cycA, cycB], s.sid ≠ "") ∧
    ([cycA, cycB].map Span.sid).Nodup ∧
    "a" ∈ nonRootKeys (buildNodeMap [cycA, cycB] none).1 (rootId none) ∧
    ¬ Reaches (buildNodeMap [cycA, cycB] none).1 (rootId none) "a" := by
  refine ⟨by decide, by decide, by decide, ?_⟩
  intro h
  have hclosed : ∀ x, Reaches (buildNodeMap [cycA, cycB] none).1 (rootId none) x →
      x = rootId none := by
    intro x hx
    induction hx with
    | refl => rfl
    | tail hb hbc ih =>
      rw [ih] at hbc
      have hempty : childKeys (buildNodeMap [cycA, cycB] none).1 (rootId none)
          (rootId none) = [] := by decide
      unfold ChildRel at hbc
      rw [hempty] at hbc
      cases hbc
  exact absurd (hclosed "a" h) (by decide)

/-- Claim C1 (amended): for every span list of N spans whose span ids are
unique, nonempty, and distinct from the root id, and whose declared parent
chains are acyclic (iterating parentTarget from every mapping key reaches
the root id within the mapping size), the tree excluding the root has
exactly N nodes: the non root keys number N, are pairwise distinct, and are
exactly the keys reachable from the returned root. -/
theorem spanTreeCompleteness (spans : List Span) (r : Option String)
    (hne : ∀ s ∈ spans, s.sid ≠ "")
    (hnd : (spans.map Span.sid).Nodup)
    (hnr : ∀ s ∈ spans, s.sid ≠ rootId r)
    (hac : ∀ k ∈ (buildNodeMap spans r).1.map Prod.fst,
      chainOk (buildNodeMap spans r).1 (rootId r)
        ((buildNodeMap spans r).1.length) k = true) :
    (nonRootKeys (buildNodeMap spans r).1 (rootId r)).length = spans.length ∧
    (nonRootKeys (buildNodeMap spans r).1 (rootId r)).Nodup ∧
    (∀ k, k ∈ nonRootKeys (buildNodeMap spans r).1 (rootId r) ↔
      (Reaches (buildNodeMap spans r).1 (rootId r) k ∧ k ≠ rootId r)) := by
  have hreg : registerSpans spans =
      (spans.map (fun s => (s.sid, spanToNode s)), []) :=
    registerFrom_eq_of_fresh spans ([], []) hne hnd (fun s hs => rfl)
  have hnrk : nonRootKeys (buildNodeMap spans r).1 (rootId r) =
      spans.map Span.sid := by
    show nonRootKeys (upsert (registerSpans spans).1 (rootId r) (rootNode r))
      (rootId r) = spans.map Span.sid
    rw [nonRootKeys_upsert]
    unfold nonRootKeys
    rw [hreg]
    have hfa : ∀ e ∈ spans.map (fun s => (s.sid, spanToNode s)),
        (e.1 != rootId r) = true := by
      intro e he
      obtain ⟨s, hs, hse⟩ := List.mem_map.mp he
      rw [← hse]
      simpa using hnr s hs
    rw [List.filter_eq_self.mpr hfa, List.map_map]
    rfl
  refine ⟨by rw [hnrk, List.length_map], by rw [hnrk]; exact hnd, ?_⟩
  intro k
  constructor
  · intro hk
    have hmemkeys := mem_nonRootKeys_iff.mp hk
    exact ⟨chainOk_reaches _ k (hac k hmemkeys.1), hmemkeys.2⟩
  · rintro ⟨hreach, hkr⟩
    rcases reaches_mem hreach with h | h
    · exact absurd h hkr
    · exact mem_nonRootKeys_iff.mpr h

/-- Claim C1 witness: the amended completeness at two spans forming a chain
under the synthetic root. -/
theorem spanTreeCompleteness_witness :
    (nonRootKeys (buildNodeMap [wSpanA, wSpanB] none).1 (rootId none)).length =
      [wSpanA, wSpanB].length ∧
    (nonRootKeys (buildNodeMap [wSpanA, wSpanB] none).1 (rootId none)).Nodup ∧
    (∀ k, k ∈ nonRootKeys (buildNodeMap [wSpanA, wSpanB] none).1 (rootId none) ↔
      (Reaches (buildNodeMap [wSpanA, wSpanB] none).1 (rootId none) k ∧
        k ≠ rootId none)) :=
  spanTreeCompleteness [wSpanA, wSpanB] none (by decide) (by decide) (by decide)
    (by decide)

/-- Claim C9 witness: the summary property at a one span list with no
filter. -/
theorem summaryCount_witness :
    showSpansSummary [sumSpan] none none 0 =
      some (renderSummaryLine (applyOpFilter none [sumSpan]).length 0) ∧
    treeNonRootCount (applyOpFilter none [sumSpan]) none ≤
      (applyOpFilter none [sumSpan]).length ∧
    (∃ sp : List Span, treeNonRootCount sp none < sp.length ∧
      showSpansSummary sp none none 0 =
        some (renderSummaryLine sp.length 0)) :=
  summaryCount [sumSpan] none none 0 (by decide) (by decide)

end SentryTool
